import Mathlib

/-!
Shallow embedding of the computational core of the `music` repository
(`src/music/music.py` and `src/music/graph.py`) and verification of the
frozen claims about it.  Machine integers are modelled as `Int` (Python
ints are unbounded); Python `dict`s are modelled as insertion-ordered
association lists; operations that can raise are modelled with `Option`.
-/

set_option maxRecDepth 10000

namespace Music

/-- Letter names of the diatonic notes, `Note.SEMITONE_MAPPER` keys. -/
inductive Letter
  | C | D | E | F | G | A | B
  deriving DecidableEq, Repr, Fintype

/-- Accidental modifiers, `Note.MODIFIER_MAPPER` keys `bb, b, '', #, ##`. -/
inductive Modifier
  | dblFlat | flat | natural | sharp | dblSharp
  deriving DecidableEq, Repr, Fintype

/-- Spelling bias `Literal['b', '#']` used by `from_semitones`. -/
inductive Bias
  | flat | sharp
  deriving DecidableEq, Repr, Fintype

/-- `Note.SEMITONE_MAPPER`: semitone offset of each letter above C. -/
def Letter.offset : Letter → Int
  | .C => 0 | .D => 2 | .E => 4 | .F => 5 | .G => 7 | .A => 9 | .B => 11

/-- `Note.MODIFIER_MAPPER`: semitone offset of each accidental. -/
def Modifier.offset : Modifier → Int
  | .dblFlat => -2 | .flat => -1 | .natural => 0 | .sharp => 1 | .dblSharp => 2

/-- Textual form of a modifier, as it appears in Python note-name strings. -/
def Modifier.str : Modifier → String
  | .dblFlat => "bb" | .flat => "b" | .natural => "" | .sharp => "#" | .dblSharp => "##"

/-- Uppercase character of a letter. -/
def Letter.char : Letter → Char
  | .C => 'C' | .D => 'D' | .E => 'E' | .F => 'F' | .G => 'G' | .A => 'A' | .B => 'B'

/-- A note name as parsed by `Note.parse_name`: a letter plus a modifier.
Python passes note names around as strings such as `"G#"`; the pair
`(simple_name, modifier)` is the parsed form that all arithmetic uses. -/
abbrev NoteName := Letter × Modifier

/-- A `Note` from `music.py`: letter name, accidental and octave.  The
Python object also caches `semitones`, `frequency` and `staff_line`,
all pure functions of these three fields, which we define separately. -/
structure Note where
  letter : Letter
  modifier : Modifier
  octave : Int
  deriving DecidableEq, Repr

/-- `Note.semitones`: `12 * octave + SEMITONE_MAPPER[simple_name] +
MODIFIER_MAPPER[modifier]`, the number of semitones above C0. -/
def Note.semitones (n : Note) : Int :=
  12 * n.octave + n.letter.offset + n.modifier.offset

/-- Python `==` on notes compares `semitones` (enharmonic equivalence). -/
def Note.eqv (a b : Note) : Bool := a.semitones == b.semitones

/-- Python `<` on notes compares `semitones`. -/
def Note.ltv (a b : Note) : Bool := a.semitones < b.semitones

/-- `Note.__sub__`: difference in semitones. -/
def Note.sub (a b : Note) : Int := a.semitones - b.semitones

/-- Inverse of `SEMITONE_MAPPER` restricted to its image
`{0,2,4,5,7,9,11}` (the `inverse_mapper` dict in `from_semitones`);
the value at other inputs is never consulted by the source. -/
def inverseLetter : Int → Letter
  | 0 => .C | 2 => .D | 4 => .E | 5 => .F | 7 => .G | 9 => .A | 11 => .B
  | _ => .C

/-- Whether a semitone remainder is one of the natural-letter offsets,
the `remainder not in Note.SEMITONE_MAPPER.values()` test. -/
def isNaturalOffset (r : Int) : Bool :=
  r == 0 || r == 2 || r == 4 || r == 5 || r == 7 || r == 9 || r == 11

/-- `Note.from_semitones(semitones, bias)`: `octave = semitones // 12`,
`remainder = semitones % 12` (Python floor division and modulus; the
modulus is positive so `Int.ediv`/`Int.emod` agree with Python), then
spell the remainder as a natural letter or with the requested bias. -/
def Note.from_semitones (semitones : Int) (bias : Bias) : Note :=
  let octave := semitones.ediv 12
  let remainder := semitones.emod 12
  if isNaturalOffset remainder then
    ⟨inverseLetter remainder, .natural, octave⟩
  else
    match bias with
    | .flat => ⟨inverseLetter (remainder + 1), .flat, octave⟩
    | .sharp => ⟨inverseLetter (remainder - 1), .sharp, octave⟩

/-- Default bias of a note: `self.modifier[0] if self.modifier else 'b'`
(the first character of the modifier string, so `bb`/`b` give `b` and
`#`/`##` give `#`; a natural defaults to `b`). -/
def Note.ownBias (n : Note) : Bias :=
  match n.modifier with
  | .dblFlat => .flat | .flat => .flat | .natural => .flat
  | .sharp => .sharp | .dblSharp => .sharp

/-- `Note.add_semitones(semitones, bias)`: rebuild from the semitone sum,
with `bias` defaulting to the note's own spelling bias. -/
def Note.add_semitones (n : Note) (semitones : Int) (bias : Option Bias := none) : Note :=
  Note.from_semitones (n.semitones + semitones) (bias.getD n.ownBias)

/-- `Note.same_name`: equality of pitch class, `semitones % 12`. -/
def Note.same_name (a b : Note) : Bool :=
  a.semitones.emod 12 == b.semitones.emod 12

/-- Bias inferred by `nearest_above`/`nearest_below` from the target name:
`note[1] if len(note) > 1 else None`, i.e. the first character of the
modifier when there is one. -/
def NoteName.secondCharBias (nm : NoteName) : Option Bias :=
  match nm.2 with
  | .natural => none
  | .dblFlat => some .flat | .flat => some .flat
  | .sharp => some .sharp | .dblSharp => some .sharp

/-- Semitone value of `Note(name, 0)`. -/
def NoteName.semitones0 (nm : NoteName) : Int := nm.1.offset + nm.2.offset

/-- `Note.nearest_above(note, allow_equal)`: the closest note with the
given letter name at (or strictly above, when `allow_equal` is false)
the receiver, via modular-12 interval arithmetic. -/
def Note.nearest_above (n : Note) (nm : NoteName) (allowEqual : Bool := true) : Note :=
  let interval := (nm.semitones0 - n.semitones).emod 12
  let interval := if !allowEqual && interval == 0 then 12 else interval
  n.add_semitones interval nm.secondCharBias

/-- `Note.nearest_below(note, allow_equal)`. -/
def Note.nearest_below (n : Note) (nm : NoteName) (allowEqual : Bool := true) : Note :=
  let interval := (n.semitones - nm.semitones0).emod 12
  let interval := if !allowEqual && interval == 0 then 12 else interval
  n.add_semitones (-interval) nm.secondCharBias

/-! String parsing and formatting of notes (`parse_name`, `__repr__`,
`from_string`).  Python `str(octave)` is modelled by `intStr` below,
with the digit expansion driven by a structurally decreasing fuel so
that the kernel can evaluate it. -/

/-- Decimal digit characters of a natural number (most significant
first); `fuel` bounds the recursion and is always called with `n + 1`. -/
def natDigits : Nat → Nat → List Char
  | 0, _ => []
  | fuel + 1, n =>
    if n < 10 then [Char.ofNat (48 + n)]
    else natDigits fuel (n / 10) ++ [Char.ofNat (48 + n % 10)]

/-- Python `str` of a natural number. -/
def natStr (n : Nat) : String := String.mk (natDigits (n + 1) n)

/-- Python `str` of an integer (a leading `-` for negative values). -/
def intStr (i : Int) : String :=
  if i < 0 then "-" ++ natStr (-i).toNat else natStr i.toNat

/-- `Note.__repr__`: `simple_name + modifier + str(octave)`. -/
def Note.reprStr (n : Note) : String :=
  String.mk [n.letter.char] ++ n.modifier.str ++ intStr n.octave

/-- Uppercased first character to a letter, `name[0].upper()` followed by
the `simple_name in SEMITONE_MAPPER` assertion. -/
def charLetter (c : Char) : Option Letter :=
  match c.toUpper with
  | 'C' => some .C | 'D' => some .D | 'E' => some .E | 'F' => some .F
  | 'G' => some .G | 'A' => some .A | 'B' => some .B
  | _ => none

/-- Modifier string to a modifier, the `modifier in MODIFIER_MAPPER`
assertion of `parse_name`. -/
def strModifier (s : String) : Option Modifier :=
  if s = "" then some .natural
  else if s = "b" then some .flat
  else if s = "bb" then some .dblFlat
  else if s = "#" then some .sharp
  else if s = "##" then some .dblSharp
  else none

/-- `Note.parse_name(name)`: asserts `len(name) <= 3`, reads the letter
from the (uppercased) first character and the modifier from the rest;
assertion failures are modelled as `none`. -/
def Note.parse_name (name : String) : Option NoteName := do
  let cs := name.toList
  if cs.length > 3 then none
  else
    match cs with
    | [] => none  -- `name[0]` raises IndexError on the empty string
    | c :: rest => do
      let l ← charLetter c
      let m ← strModifier (String.mk rest)
      pure (l, m)

/-- `Note(name, octave)`: the constructor, failing (`none`) when
`parse_name` rejects the name. -/
def Note.init (name : String) (octave : Int) : Option Note :=
  (Note.parse_name name).map (fun nm => ⟨nm.1, nm.2, octave⟩)

/-- Python `int` applied to a one-character string, as used by
`from_string` on `note[-1]`: a decimal digit parses, anything else
raises (`none`). -/
def charInt (c : Char) : Option Int :=
  if c.isDigit then some ((c.toNat : Int) - 48) else none

/-- `Note.from_string(note)`: `Note(note[:-1], int(note[-1]))`.  Only the
last character is treated as the octave. -/
def Note.from_string (s : String) : Option Note := do
  let cs := s.toList
  match cs.getLast? with
  | none => none  -- `note[-1]` raises IndexError on the empty string
  | some last => do
    let oct ← charInt last
    Note.init (String.mk cs.dropLast) oct

/-! Python dictionaries, modelled as insertion-ordered association lists
with an explicit key-equality function (Python dict lookup uses the
keys' `__eq__`, which for `Note`/`Chord` keys is enharmonic equality,
not structural equality). -/

/-- Association list standing for a Python `dict`. -/
abbrev Dict (α β : Type) := List (α × β)

/-- Dictionary lookup: the value at the first key equal to `k`. -/
def dictGet (eq : α → α → Bool) (d : Dict α β) (k : α) : Option β :=
  match d with
  | [] => none
  | (a, b) :: rest => if eq a k then some b else dictGet eq rest k

/-- Dictionary assignment `d[k] = v`: update the existing entry in place
(keeping its position, as CPython does) or append a new one. -/
def dictSet (eq : α → α → Bool) (d : Dict α β) (k : α) (v : β) : Dict α β :=
  match d with
  | [] => [(k, v)]
  | (a, b) :: rest =>
    if eq a k then (a, v) :: rest else (a, b) :: dictSet eq rest k v

/-- Dictionary deletion `d.pop(k)`: drop the first entry whose key is `k`. -/
def dictPop (eq : α → α → Bool) (d : Dict α β) (k : α) : Dict α β :=
  match d with
  | [] => []
  | (a, b) :: rest => if eq a k then rest else (a, b) :: dictPop eq rest k

/-! The graph module `graph.py`: `Edge`, `Graph`, `Graph.shortest_path`
and the assignment solver `assign`.  Edge weights are Python floats, but
every weight the repository ever feeds in is an exact small integer
(semitone or Manhattan distances and literal `0.`), so `Int` models the
float arithmetic exactly. -/

/-- `graph.Edge`: a weighted directed edge. -/
structure Edge (α : Type) where
  start : α
  stop : α
  weight : Int

/-- Cost values in `shortest_path`: `none` stands for `float('inf')`. -/
abbrev Cost := Option Int

/-- Comparison of costs, with `none` as positive infinity; mirrors the
Python `<` on floats used both by relaxation and by `min(unvisited,
key=unvisited.get)` (note `inf < inf` is false). -/
def costLt : Cost → Cost → Bool
  | some a, some b => a < b
  | some _, none => true
  | none, _ => false

/-- `graph.Graph.__init__`: stores the node list, an edge-weight dict
keyed by `(start, end)` and a `defaultdict(list)` adjacency map built by
appending each edge's end to `graph[edge.start]`. -/
structure Graph (α : Type) where
  nodes : List α
  edges : Dict (α × α) Int
  adj : Dict α (List α)

/-- Pair equality from a node equality. -/
def pairEq (eq : α → α → Bool) (a b : α × α) : Bool :=
  eq a.1 b.1 && eq a.2 b.2

/-- Append a neighbour to `graph[start]`, creating the entry if absent
(the `defaultdict(list)` behaviour). -/
def adjAppend (eq : α → α → Bool) (d : Dict α (List α)) (k : α) (v : α) : Dict α (List α) :=
  match d with
  | [] => [(k, [v])]
  | (a, l) :: rest =>
    if eq a k then (a, l ++ [v]) :: rest else (a, l) :: adjAppend eq rest k v

/-- Build a `Graph` from node and edge lists, as `Graph.__init__` does. -/
def Graph.mk' (eq : α → α → Bool) (nodes : List α) (edges : List (Edge α)) : Graph α :=
  let step := fun (g : Graph α) (e : Edge α) =>
    { g with
      edges := dictSet (pairEq eq) g.edges (e.start, e.stop) e.weight
      adj := adjAppend eq g.adj e.start e.stop }
  edges.foldl step { nodes := nodes, edges := [], adj := [] }

/-- `min(unvisited, key=unvisited.get)`: the first key attaining the
minimal value (Python's `min` keeps the earliest element on ties). -/
def minKeyByVal (d : Dict α Cost) : Option α :=
  match d with
  | [] => none
  | (k, v) :: rest =>
    let best := rest.foldl
      (fun (acc : α × Cost) (kv : α × Cost) =>
        if costLt kv.2 acc.2 then kv else acc) (k, v)
    some best.1

/-- State of the `while unvisited` loop in `shortest_path`. -/
structure SPState (α : Type) where
  costs : Dict α Cost
  preds : Dict α α
  unvisited : Dict α Cost

/-- One full pass of the `while unvisited` loop body: refresh the
`unvisited` values from `costs`, pop the minimum, and relax each
neighbour `v` by comparing the raw edge weight `edges[(u, v)]` — not the
accumulated cost — against `costs[v]`.  This mirrors the source exactly,
including its non-standard relaxation rule. -/
def spStep (eq : α → α → Bool) (g : Graph α) (st : SPState α) : SPState α :=
  let unvisited := st.unvisited.map (fun kv => (kv.1, (dictGet eq st.costs kv.1).getD none))
  match minKeyByVal unvisited with
  | none => st
  | some current =>
    let unvisited := dictPop eq unvisited current
    let neighbors := (dictGet eq g.adj current).getD []
    let relax := fun (acc : Dict α Cost × Dict α α) (nb : α) =>
      let currentNbCost := (dictGet eq acc.1 nb).getD none
      -- `edges[(current, nb)]` always exists: adjacency entries are only
      -- created together with their edge-dict entries in `Graph.mk'`
      let testNbCost := (dictGet (pairEq eq) g.edges (current, nb)).getD 0
      if costLt (some testNbCost) currentNbCost then
        (dictSet eq acc.1 nb (some testNbCost), dictSet eq acc.2 nb current)
      else acc
    let (costs, preds) := neighbors.foldl relax (st.costs, st.preds)
    { costs := costs, preds := preds, unvisited := unvisited }

/-- Run the `while unvisited` loop to completion; each pass removes one
key from `unvisited`, so `unvisited.length` passes suffice. -/
def spLoop (eq : α → α → Bool) (g : Graph α) : Nat → SPState α → SPState α
  | 0, st => st
  | fuel + 1, st =>
    if st.unvisited.isEmpty then st
    else spLoop eq g fuel (spStep eq g st)

/-- Predecessor backtracking: `trajectory` starts at `terminal` and
follows `predecessors` until `initial`; a missing predecessor is the
Python `KeyError` (`none`), and the fuel bound models non-termination of
the `while` loop the same way. -/
def backtrack (eq : α → α → Bool) (preds : Dict α α) (initial : α) :
    Nat → α → List α → Option (List α)
  | 0, _, _ => none
  | fuel + 1, current, acc =>
    if eq current initial then some acc
    else
      match dictGet eq preds current with
      | none => none
      | some p => backtrack eq preds initial fuel p (p :: acc)

/-- State of `shortest_path` after the `while unvisited` loop:
initialise every node's cost to infinity and `initial` to `0`, then run
the (mis-relaxing) main loop to completion. -/
def Graph.sp_state (eq : α → α → Bool) (g : Graph α) (initial : α) : SPState α :=
  let costs : Dict α Cost := g.nodes.foldl (fun d n => dictSet eq d n none) []
  let costs := dictSet eq costs initial (some 0)
  spLoop eq g costs.length { costs := costs, preds := [], unvisited := costs }

/-- `Graph.shortest_path(initial, terminal)`, exactly as implemented:
run the main loop, then backtrack predecessors from `terminal`. -/
def Graph.shortest_path (eq : α → α → Bool) (g : Graph α) (initial terminal : α) :
    Option (List α) :=
  backtrack eq (Graph.sp_state eq g initial).preds initial
    (g.nodes.length + 1) terminal [terminal]

/-- Total weight of a path under a graph's edge dictionary (used to
state optimality and its failure; each consecutive pair must be an
edge, missing edges count 0 and are ruled out separately). -/
def pathWeight (eq : α → α → Bool) (g : Graph α) : List α → Int
  | a :: b :: rest => (dictGet (pairEq eq) g.edges (a, b)).getD 0 + pathWeight eq g (b :: rest)
  | _ => 0

/-- Whether consecutive elements of a list are all edges of the graph. -/
def isPath (eq : α → α → Bool) (g : Graph α) : List α → Bool
  | a :: b :: rest => (dictGet (pairEq eq) g.edges (a, b)).isSome && isPath eq g (b :: rest)
  | _ => true

/-- Insert into a sorted list, after any element it is not strictly
below; folding this over a list is a stable ascending sort, agreeing
with Python's stable `sorted` (which only consults `<`). -/
def insertOrd (lt : α → α → Bool) (x : α) : List α → List α
  | [] => [x]
  | y :: ys => if lt x y then x :: y :: ys else y :: insertOrd lt x ys

/-- Stable ascending sort by a strict comparison, modelling `sorted`. -/
def sortedBy (lt : α → α → Bool) (l : List α) : List α :=
  l.foldl (fun acc x => insertOrd lt x acc) []

/-- First index of the minimal entry of a list, `numpy.argmin`. -/
def argminList (xs : List Int) : Nat :=
  match xs with
  | [] => 0
  | x :: rest =>
    (rest.foldl
      (fun (acc : Nat × Int × Nat) (v : Int) =>
        let (bi, bv, i) := acc
        if v < bv then (i, v, i + 1) else (bi, bv, i + 1))
      (0, x, 1)).1

/-- Entry `mat[r][c]` of a cost matrix; out-of-range reads (which would
raise in Python) return 0 and are never reached by the code below. -/
def matGet (mat : List (List Int)) (r c : Nat) : Int :=
  ((mat.getD r []).getD c 0)

/-- Injective sequences of length `n` drawn from `avail`, in
lexicographic order of choices. -/
def injFrom (avail : List Nat) : Nat → List (List Nat)
  | 0 => [[]]
  | n + 1 => avail.flatMap (fun r => (injFrom (avail.erase r) n).map (r :: ·))

/-- Total cost of assigning column `j` to row `rows[j]`. -/
def assignTotal (mat : List (List Int)) (rows : List Nat) : Int :=
  (rows.enum.map (fun (j, r) => matGet mat r j)).foldl (· + ·) 0

/-- Modelled from the spec: `scipy.optimize.linear_sum_assignment` is an
external library routine, specified in §4.6 as exact minimum-cost
bipartite matching ("always uses exact minimum-cost matching (no greedy
approximation)").  For an `m × n` matrix with `m ≥ n` it matches every
column to a distinct row minimising the total cost; here the first
optimum in lexicographic order of row choices is taken (every input the
claims evaluate has a unique optimum, so the tie rule is immaterial),
and the pairs are returned sorted by row as scipy does. -/
def linear_sum_assignment (mat : List (List Int)) : List (Nat × Nat) :=
  let m := mat.length
  let n := (mat.headD []).length
  let cands := injFrom (List.range m) n
  match cands with
  | [] => []
  | c0 :: rest =>
    let best := rest.foldl
      (fun acc c => if assignTotal mat c < assignTotal mat acc then c else acc) c0
    let pairs := best.enum.map (fun (j, r) => (r, j))
    sortedBy (fun a b => a.1 < b.1) pairs

/-- `graph.assign(cost_matrix, assign_surplus)`: raise (`none`) when the
matrix has more columns than rows; otherwise solve the assignment
problem and give each surplus row its own row-minimum column (or `None`)
before sorting by row and projecting the columns. -/
def assign (mat : List (List Int)) (assignSurplus : Bool := true) :
    Option (List (Option Nat)) :=
  let m := mat.length
  let n := (mat.headD []).length
  if m < n then none
  else
    let pairs := linear_sum_assignment mat
    let assignedRows := pairs.map (·.1)
    let surplus := (List.range m).filter (fun r => !assignedRows.contains r)
    let assignments : List (Nat × Option Nat) :=
      pairs.map (fun (r, c) => (r, some c)) ++
        surplus.map (fun s =>
          (s, if assignSurplus then some (argminList (mat.getD s [])) else none))
    some ((sortedBy (fun (a b : Nat × Option Nat) => a.1 < b.1) assignments).map (·.2))

/-! The `Chord` class: an ordered list of notes kept sorted ascending by
semitones, with the permutation-invariant `semitone_distance`. -/

/-- A `Chord` is its `notes` field: a semitone-sorted list of notes. -/
abbrev Chord := List Note

/-- Python `<` on notes, used by `sorted(notes)`. -/
def noteLt (a b : Note) : Bool := a.semitones < b.semitones

/-- `Chord.__init__`: `self.notes = sorted(notes)` (stable). -/
def Chord.mk' (notes : List Note) : Chord := sortedBy noteLt notes

/-- `Chord.__eq__`: same length and pairwise enharmonic equality. -/
def Chord.eqv (a b : Chord) : Bool :=
  a.length == b.length && (a.zip b).all (fun (s, o) => s.eqv o)

/-- Transpose of an `m × n` cost matrix (`numpy .transpose()`). -/
def matTranspose (mat : List (List Int)) (m n : Nat) : List (List Int) :=
  (List.range n).map (fun j => (List.range m).map (fun i => matGet mat i j))

/-- `Chord.semitone_distance(other)`: build the `|Δsemitones|` cost
matrix over the two note lists, transpose when it has more columns than
rows, and total the costs along the `assign` solution.  (In the source
the transposition test reuses the loop variables `row`/`col` after the
matrix-filling loops, which for non-empty chords is exactly a
columns-greater-than-rows test.)  An empty chord would make the Python
raise `NameError`; the repository only ever calls this on non-empty
chords, and that case returns 0 here. -/
def Chord.semitone_distance (a b : Chord) : Int :=
  let mat : List (List Int) := a.map (fun s => b.map (fun o => ((s.sub o).natAbs : Int)))
  let mat := if b.length > a.length then matTranspose mat a.length b.length else mat
  match assign mat true with
  | none => 0  -- unreachable: after transposition rows ≥ columns
  | some cols =>
    ((cols.enum.map (fun (row, c) =>
        match c with
        | some col => matGet mat row col
        | none => 0)).foldl (· + ·) 0)

/-! Enumeration helpers `note_set` and `constrained_powerset`, plus
faithful models of `itertools.combinations` and
`itertools.combinations_with_replacement` (both enumerate in
lexicographic order of input positions). -/

/-- `itertools.combinations(l, r)` as a list of `r`-element sublists. -/
def combinations (r : Nat) (l : List α) : List (List α) :=
  match r, l with
  | 0, _ => [[]]
  | _ + 1, [] => []
  | r + 1, x :: xs => (combinations r xs).map (x :: ·) ++ combinations (r + 1) xs

/-- `itertools.combinations_with_replacement(l, r)`. -/
def combosWithRepl (r : Nat) (l : List α) : List (List α) :=
  match r, l with
  | 0, _ => [[]]
  | _ + 1, [] => []
  | r + 1, x :: xs =>
    (combosWithRepl r (x :: xs)).map (x :: ·) ++ combosWithRepl (r + 1) xs

/-- `note_set(note_list)`: the set `{Note(n.name, 0) for n in list}`.
Python set membership uses `Note.__eq__`/`__hash__`, i.e. semitone
equality, so the set is represented by the deduplicated list of
octave-0 semitone values. -/
def note_set (l : List Note) : List Int :=
  (l.map (fun n => n.letter.offset + n.modifier.offset)).dedup

/-- Set inclusion `a >= b` on the `note_set` representation. -/
def setSupseteq (a b : List Int) : Bool := b.all (a.contains ·)

/-- `constrained_powerset(note_list, max_len, required_notes,
allow_repeats, allow_identical)`: subsets of size `0..max_len` whose
pitch-class set contains `required_notes`, generated by combinations
(or combinations-with-replacement when `allow_identical`); when
`allow_repeats` is false a letter name may appear only once.  Python's
`max_len = max_len or len(note_list)` treats 0 as "use the list
length", and `range(max_len + 1)` is empty for negative `max_len`. -/
def constrained_powerset (noteList : List Note) (maxLen : Int := 0)
    (requiredNotes : Option (List Int) := none)
    (allowRepeats : Bool := true) (allowIdentical : Bool := false) :
    List (List Note) :=
  let maxLen : Int := if maxLen == 0 then (noteList.length : Int) else maxLen
  let required := requiredNotes.getD (note_set noteList)
  let powerset := (List.range (maxLen + 1).toNat).flatMap
    (fun r => if allowIdentical then combosWithRepl r noteList else combinations r noteList)
  if allowRepeats then
    powerset.filter (fun s => setSupseteq (note_set s) required)
  else
    powerset.filter (fun s =>
      setSupseteq (note_set s) required && (note_set s).length == s.length)

/-! The `ChordName` class: vocabulary tables, longest-prefix parsing via
`best_match`, and realization of all chords in a range
(`get_all_chords`). -/

/-- `ChordName.FLAT_KEYS`. -/
def FLAT_KEYS : List String :=
  ["C", "F", "Bb", "Eb", "Ab", "Db", "Gb", "Cb", "Fb", "Bbb", "Ebb", "Abb", "Dbb"]

/-- `ChordName.SHARP_KEYS`. -/
def SHARP_KEYS : List String :=
  ["G", "D", "A", "E", "B", "F#", "C#", "G#", "D#", "A#", "E#", "B#", "F##"]

/-- Keys of `ChordName.KEY_BIAS` in insertion order (flat then sharp). -/
def KEY_NAMES : List String := FLAT_KEYS ++ SHARP_KEYS

/-- `ChordName.KEY_BIAS[key]`: flat for flat keys, sharp otherwise. -/
def keyBiasOf (key : String) : Bias :=
  if FLAT_KEYS.contains key then .flat else .sharp

/-- `ChordName.QUALITY_SEMITONE_MAPPER`, in insertion order. -/
def QUALITY_SEMITONE_MAPPER : List (String × List Int) :=
  [("", [0, 4, 7]), ("maj", [0, 4, 7]), ("M", [0, 4, 7]),
   ("min", [0, 3, 7]), ("m", [0, 3, 7]),
   ("dim", [0, 3, 6]), ("aug", [0, 4, 8]),
   ("sus2", [0, 2, 7]), ("sus4", [0, 5, 7]),
   ("maj7", [0, 4, 7, 11]), ("M7", [0, 4, 7, 11]),
   ("7", [0, 4, 7, 10]),
   ("minmaj7", [0, 3, 7, 11]), ("mM7", [0, 3, 7, 11]),
   ("mmaj7", [0, 3, 7, 11]), ("minM7", [0, 3, 7, 11]),
   ("min7", [0, 3, 7, 10]), ("m7", [0, 3, 7, 10]),
   ("m7b5", [0, 3, 6, 10]), ("dim7", [0, 3, 6, 9]),
   ("aug7", [0, 4, 8, 10]), ("6", [0, 4, 7, 9])]

/-- `ChordName.EXTENSION_SEMITONE_MAPPER` after its two comprehensions:
degrees 9/11/13 with single-character accidental variants, in the
resulting insertion order. -/
def EXTENSION_SEMITONE_MAPPER : List (String × Int) :=
  [("b9", 13), ("9", 14), ("#9", 15),
   ("b11", 16), ("11", 17), ("#11", 18),
   ("b13", 20), ("13", 21), ("#13", 22)]

/-- Python `s.startswith(tok)` on character lists (structural, so the
kernel can evaluate it). -/
def listStartsWith : List Char → List Char → Bool
  | _, [] => true
  | [], _ :: _ => false
  | a :: as, b :: bs => a == b && listStartsWith as bs

/-- One left-to-right non-overlapping pass of Python
`s.replace(tok, '')` for a non-empty `tok`; `fuel` bounds the scan (the
string shrinks at every step). -/
def listReplace (tok : List Char) : Nat → List Char → List Char
  | 0, s => s
  | fuel + 1, s =>
    match s with
    | [] => []
    | c :: rest =>
      if listStartsWith s tok then listReplace tok fuel (s.drop tok.length)
      else c :: listReplace tok fuel rest

/-- Python `remainder.replace(tok, '')`, with an empty token leaving the
string unchanged (as `str.replace('', '')` does for our purposes). -/
def replaceAll (s tok : List Char) : List Char :=
  if tok.isEmpty then s else listReplace tok (s.length + 1) s

/-- Python `name.split('/')`. -/
def splitOnSlash (s : List Char) : List (List Char) :=
  s.foldr
    (fun ch acc =>
      if ch == '/' then [] :: acc
      else
        match acc with
        | [] => [[ch]]  -- unreachable: the accumulator is never empty
        | grp :: gs => (ch :: grp) :: gs)
    [[]]

/-- `best_match(s, choices)`: all choices that are a starting segment of
`s`, then the longest one (Python `max(…, key=len)` keeps the first on
ties); no match raises `ValueError` (`none`). -/
def best_match (s : List Char) (choices : List String) : Option String :=
  let hits := choices.filter (fun c => listStartsWith s c.toList)
  match hits with
  | [] => none
  | c0 :: rest =>
    some (rest.foldl (fun acc c => if c.length > acc.length then c else acc) c0)

/-- The extension-token loop of `ChordName.parse_name`: repeatedly take
the best extension match and strip it; `fuel` dominates the loop since
each successful match strictly shortens the remainder. -/
def parseExtensions : Nat → List Char → List String → Option (List String)
  | _, [], acc => some acc.reverse
  | 0, _, _ => none
  | fuel + 1, remainder, acc => do
    let ext ← best_match remainder (EXTENSION_SEMITONE_MAPPER.map (·.1))
    parseExtensions fuel (replaceAll remainder ext.toList) (ext :: acc)

/-- `ChordName.parse_name(name)`: longest-prefix root, optional `/bass`
suffix, longest-prefix quality, then extension tokens until the string
is consumed.  Returns `(chord_note, quality, extensions, root)`. -/
def ChordName.parse_name (name : String) : Option (String × String × List String × String) := do
  let cs := name.toList
  let chordNote ← best_match cs KEY_NAMES
  let (remainder, root) ←
    if cs.contains '/' then
      match splitOnSlash cs with
      | [a, b] => some (a, String.mk b)
      | _ => none  -- `remainder, root = name.split('/')` unpack error
    else some (cs, chordNote)
  let remainder := replaceAll remainder chordNote.toList
  let quality ← best_match remainder (QUALITY_SEMITONE_MAPPER.map (·.1))
  let remainder := replaceAll remainder quality.toList
  let extensions ← parseExtensions (remainder.length + 1) remainder []
  pure (chordNote, quality, extensions, root)

/-- A parsed `ChordName`: the derived data that chord realization uses.
`note_names` is rotated so the bass-matching tone comes first (or has
the bass inserted at the front). -/
structure ChordName where
  chord_note : NoteName
  key_bias : Bias
  note_names : List NoteName
  extension_names : List NoteName
  root : NoteName
  deriving DecidableEq, Repr

/-- `_rotate_list(list_, n)` (only called with `n < len`). -/
def rotateList (l : List α) (n : Nat) : List α := l.drop n ++ l.take n

/-- The root-index scan of `ChordName.__init__`: the loop keeps the last
index whose note has the same pitch class as the root. -/
def lastSameNameIdx (names : List NoteName) (root : NoteName) : Option Nat :=
  (names.enum.foldl
    (fun acc (p : Nat × NoteName) =>
      if (Note.mk p.2.1 p.2.2 0).same_name (Note.mk root.1 root.2 0) then some p.1 else acc)
    none)

/-- `ChordName.__init__` after parsing: compute `key_bias`,
`note_names` (quality intervals above `Note(chord_note, 0)`, spelled
with the key bias, rotated so the bass-matching tone is first, or with
the root inserted at the front), and `extension_names` (extension
intervals above `Note(chord_note, 1)`, spelled with the extension's own
accidental when it has one). -/
def ChordName.ofString (chordName : String) : Option ChordName := do
  let (chordNoteStr, quality, extensions, rootStr) ← ChordName.parse_name chordName
  let chordNote ← Note.parse_name chordNoteStr
  let root ← Note.parse_name rootStr
  let bias := keyBiasOf chordNoteStr
  let qualitySemis := ((QUALITY_SEMITONE_MAPPER.filter (·.1 == quality)).headD ("", [])).2
  let names := qualitySemis.map (fun s =>
    let n := (Note.mk chordNote.1 chordNote.2 0).add_semitones s (some bias)
    (n.letter, n.modifier))
  let names :=
    match lastSameNameIdx names root with
    | some idx => rotateList names idx
    | none => root :: names
  let extNames := extensions.map (fun ext =>
    let extBias :=
      if listStartsWith ext.toList ['#'] then Bias.sharp
      else if listStartsWith ext.toList ['b'] then Bias.flat
      else bias
    let semis := ((EXTENSION_SEMITONE_MAPPER.filter (·.1 == ext)).headD ("", 0)).2
    let n := (Note.mk chordNote.1 chordNote.2 1).add_semitones semis (some extBias)
    (n.letter, n.modifier))
  pure { chord_note := chordNote, key_bias := bias, note_names := names,
         extension_names := extNames, root := root }

/-- Python `<=`/`<` on notes via semitones. -/
def Note.le (a b : Note) : Bool := a.semitones ≤ b.semitones

/-- First minimal note of a non-empty list (`min` on notes); the empty
case (a Python `ValueError`) returns the given default and is never
reached where used. -/
def listMinNote (l : List Note) (dflt : Note) : Note :=
  match l with
  | [] => dflt
  | x :: rest => rest.foldl (fun acc n => if noteLt n acc then n else acc) x

/-- `ChordName.get_all_chords(lower, upper, max_notes, allow_repeats,
allow_identical)`: enumerate every realization of the chord name inside
`[lower, upper]`: candidate roots one per octave, admissible extension
subsets, then the constrained powerset of the remaining chord tones
strictly between the root and the lowest extension (or `upper`). -/
def ChordName.get_all_chords (cn : ChordName) (lower upper : Note)
    (maxNotes : Option Int := none)
    (allowRepeats : Bool := false) (allowIdentical : Bool := false) : List Chord :=
  let defMax : Int := (cn.note_names.length : Int) + (cn.extension_names.length : Int)
  -- `max_notes = max_notes or len(note_names) + len(extension_names)`
  let maxNotes : Int := match maxNotes with
    | none => defMax
    | some m => if m == 0 then defMax else m
  let maxOctaves : Int := (upper.sub lower).ediv 12 + 1
  let octaves := List.range maxOctaves.toNat
  let rootNotes := octaves.map (fun o =>
    (lower.nearest_above cn.root).add_semitones (12 * (o : Int)))
  let requiredNotes : List Int :=
    ((cn.note_names.drop 1).map (fun nm => nm.semitones0)).dedup
  let possibleNotes := octaves.flatMap (fun o =>
    cn.note_names.filterMap (fun nm =>
      let x := (lower.nearest_above nm).add_semitones (12 * (o : Int))
      if x.le upper then some x else none))
  let possibleExtensions := (octaves.drop 1).flatMap (fun o =>
    cn.extension_names.filterMap (fun nm =>
      let x := (lower.nearest_above nm).add_semitones (12 * (o : Int))
      if x.le upper then some x else none))
  -- `constrained_powerset(possible_extensions,
  --    max_len=len(self.extension_names), allow_repeats=False)`
  let extensions := constrained_powerset possibleExtensions
    ((cn.extension_names.length : Int)) none false
  rootNotes.flatMap (fun rootNote =>
    extensions.flatMap (fun ext =>
      let upper_ := if ext.isEmpty then upper else listMinNote ext upper
      let noteList :=
        if allowIdentical then
          possibleNotes.filter (fun x => rootNote.le x && x.le upper_)
        else if allowRepeats then
          possibleNotes.filter (fun x => noteLt rootNote x && x.le upper_)
        else
          possibleNotes.filter (fun x =>
            noteLt rootNote x && x.le upper_ && !(x.same_name rootNote))
      let availableNotes : Int := maxNotes - 1 - (ext.length : Int)
      let midNotesList := constrained_powerset noteList availableNotes
        (some requiredNotes) allowRepeats allowIdentical
      midNotesList.map (fun midNotes => Chord.mk' (rootNote :: midNotes ++ ext))))

/-! The `ChordProgression` class and `optimal_voice_leading`, in both of
its branches (`use_dijkstra=True` builds the layered graph and calls
`Graph.shortest_path`; `use_dijkstra=False` brute-forces the product of
the per-stage voicings). -/

/-- Graph nodes of the voice-leading search: `(stage index, voicing)`,
with `None` for the synthetic initial/terminal nodes. -/
abbrev ChordNode := Int × Option Chord

/-- Equality used when these nodes are dictionary keys: Python tuple
equality with `Chord.__eq__` (enharmonic) in the second slot. -/
def chordNodeEq (a b : ChordNode) : Bool :=
  a.1 == b.1 &&
    match a.2, b.2 with
    | none, none => true
    | some x, some y => Chord.eqv x y
    | _, _ => false

/-- Total `semitone_distance` along consecutive chords of a progression,
the quantity `optimal_voice_leading` is meant to minimise. -/
def totalMotion : List Chord → Int
  | a :: b :: rest => Chord.semitone_distance a b + totalMotion (b :: rest)
  | _ => 0

/-- `itertools.product(*lists)` in lexicographic order. -/
def listProduct : List (List α) → List (List α)
  | [] => [[]]
  | l :: rest => l.flatMap (fun x => (listProduct rest).map (x :: ·))

/-- `ChordProgression.optimal_voice_leading(lower, upper)` with
`use_dijkstra=True` (the default): enumerate each stage's voicings,
build the layered graph with zero-weight edges from/to synthetic
initial and terminal nodes and `semitone_distance` weights between
consecutive stages, run `shortest_path`, and return the interior of the
path.  An empty progression (where Python's `voicings[0]` raises) and a
failing backtrack (Python `KeyError`) are both `none`. -/
def optimal_voice_leading (chords : List ChordName) (lower upper : Note) :
    Option (List (Option Chord)) :=
  let voicings := chords.map (fun c => c.get_all_chords lower upper)
  match voicings with
  | [] => none
  | v0 :: _ =>
    let nChords : Int := (chords.length : Int)
    let initial : ChordNode := (-1, none)
    let terminal : ChordNode := (nChords, none)
    let voicingsFlat : List ChordNode :=
      voicings.enum.flatMap (fun (i, v) => v.map (fun vv => ((i : Int), some vv)))
    let nodes : List ChordNode := initial :: voicingsFlat ++ [terminal]
    let initialEdges := v0.map (fun v => Edge.mk initial ((0 : Int), some v) 0)
    let terminalEdges := (voicings.getLast?.getD []).map
      (fun v => Edge.mk ((nChords - 1 : Int), some v) terminal 0)
    let interiorEdges := (voicings.dropLast).enum.flatMap (fun (i, v) =>
      let vNext := voicings.getD (i + 1) []
      v.flatMap (fun start =>
        vNext.map (fun stop =>
          Edge.mk ((i : Int), some start) ((i : Int) + 1, some stop)
            (Chord.semitone_distance start stop))))
    let edges := initialEdges ++ interiorEdges ++ terminalEdges
    let g := Graph.mk' chordNodeEq nodes edges
    (g.shortest_path chordNodeEq initial terminal).map
      (fun path => ((path.drop 1).dropLast).map (·.2))

/-- The `use_dijkstra=False` branch of `optimal_voice_leading`: list
every element of `itertools.product(*voicings)` with its total motion,
sort stably by motion, and take the first (`motions[0]`, which raises —
`none` — when the product is empty). -/
def optimal_voice_leading_brute (chords : List ChordName) (lower upper : Note) :
    Option (List Chord) :=
  let voicings := chords.map (fun c => c.get_all_chords lower upper)
  let motions := (listProduct voicings).map (fun prog => (prog, totalMotion prog))
  let motions := sortedBy (fun (a b : List Chord × Int) => a.2 < b.2) motions
  motions.head?.map (·.1)

/-- Per-stage voicing candidate lists, for stating optimality. -/
def voicingStages (chords : List ChordName) (lower upper : Note) : List (List Chord) :=
  chords.map (fun c => c.get_all_chords lower upper)

/-! The `Guitar` class: tuning, capo and derived playing range.  String
identifiers are Python hashables; the repository's tunings key them by
short strings, which `String` models. -/

/-- A tuning: an insertion-ordered mapping from string name to open
note. -/
abbrev Tuning := Dict String Note

/-- `Guitar.TUNINGS['standard']`. -/
def standardTuning : Tuning :=
  [("E", ⟨.E, .natural, 2⟩), ("A", ⟨.A, .natural, 2⟩), ("D", ⟨.D, .natural, 3⟩),
   ("G", ⟨.G, .natural, 3⟩), ("B", ⟨.B, .natural, 3⟩), ("e", ⟨.E, .natural, 4⟩)]

/-- `Guitar.TUNINGS`, in insertion order. -/
def TUNINGS : Dict String Tuning :=
  [("standard", standardTuning),
   ("drop_d",
    [("D", ⟨.D, .natural, 2⟩), ("A", ⟨.A, .natural, 2⟩), ("d", ⟨.D, .natural, 3⟩),
     ("G", ⟨.G, .natural, 3⟩), ("B", ⟨.B, .natural, 3⟩), ("e", ⟨.E, .natural, 4⟩)]),
   ("open_d",
    [("D", ⟨.D, .natural, 2⟩), ("A", ⟨.A, .natural, 2⟩), ("d", ⟨.D, .natural, 3⟩),
     ("F#", ⟨.F, .sharp, 3⟩), ("a", ⟨.A, .natural, 3⟩), ("dd", ⟨.D, .natural, 4⟩)]),
   ("open_g",
    [("D", ⟨.D, .natural, 2⟩), ("G", ⟨.G, .natural, 2⟩), ("d", ⟨.D, .natural, 3⟩),
     ("g", ⟨.G, .natural, 3⟩), ("B", ⟨.B, .natural, 3⟩), ("dd", ⟨.D, .natural, 4⟩)]),
   ("open_a",
    [("E", ⟨.E, .natural, 2⟩), ("A", ⟨.A, .natural, 2⟩), ("C#", ⟨.C, .sharp, 3⟩),
     ("e", ⟨.E, .natural, 3⟩), ("a", ⟨.A, .natural, 3⟩), ("ee", ⟨.E, .natural, 4⟩)])]

/-- `Guitar.DEFAULT_FRETS`. -/
def DEFAULT_FRETS : Int := 22

/-- A constructed `Guitar`: playing tuning (capo applied), string order,
fret count above the capo, and range. -/
structure Guitar where
  tuning : Tuning
  string_names : List String
  frets : Int
  capo : Int
  lowest : Note
  highest : Note
  deriving DecidableEq, Repr

/-- First maximal note of a non-empty list (`max` on notes); default for
the never-reached empty case. -/
def listMaxNote (l : List Note) (dflt : Note) : Note :=
  match l with
  | [] => dflt
  | x :: rest => rest.foldl (fun acc n => if noteLt acc n then n else acc) x

/-- The open-tuning resolution at the top of `Guitar.__init__`: a named
`tuning_name` must be a known tuning (the assertion — `none` on
failure), an explicit `tuning` is used as given, and the default is the
standard tuning. -/
def Guitar.resolve_tuning (tuningName : Option String) (tuning : Option Tuning) :
    Option Tuning :=
  match tuningName with
  | some name => dictGet (· == ·) TUNINGS name
  | none =>
    match tuning with
    | some t => some t
    | none => some standardTuning

/-- The remainder of `Guitar.__init__` given the resolved open tuning:
raise every open note by the capo, set `frets = frets - capo` with no
check, and derive the range.  An empty tuning would make `min`/`max`
raise (`none`). -/
def Guitar.build (openTuning : Tuning) (frets capo : Int) : Option Guitar :=
  let playTuning : Tuning := openTuning.map (fun (s, n) => (s, n.add_semitones capo))
  let fretsAfter := frets - capo
  match playTuning.map (·.2) with
  | [] => none  -- `min(...)` over an empty tuning raises ValueError
  | n0 :: rest =>
    some { tuning := playTuning
           string_names := playTuning.map (·.1)
           frets := fretsAfter
           capo := capo
           lowest := listMinNote (n0 :: rest) n0
           highest := (listMaxNote (n0 :: rest) n0).add_semitones fretsAfter }

/-- `Guitar.__init__(tuning_name, tuning, frets, capo)`. -/
def Guitar.init (tuningName : Option String := none) (tuning : Option Tuning := none)
    (frets : Int := DEFAULT_FRETS) (capo : Int := 0) : Option Guitar :=
  (Guitar.resolve_tuning tuningName tuning).bind
    (fun ot => Guitar.build ot frets capo)

/-! The `GuitarPosition` class: a string-to-fret mapping and its derived
playability attributes.  Each derived attribute of `__init__` is a pure
function of the guitar and the `positions` dict, defined here in the
same order the constructor computes them. -/

/-- A fret mapping as passed to `GuitarPosition.__init__`. -/
abbrev Positions := Dict String Int

/-- `self.valid`: every fret within `[0, guitar.frets]`. -/
def GuitarPosition.valid (g : Guitar) (pos : Positions) : Bool :=
  pos.all (fun (p : String × Int) => 0 ≤ p.2 && p.2 ≤ g.frets)

/-- `self.lowest_fret`: `None` for an empty mapping, 0 when every fret
is 0, else the minimum non-zero fret (of the raw `positions` dict). -/
def GuitarPosition.lowest_fret (pos : Positions) : Option Int :=
  match pos with
  | [] => none
  | _ =>
    let vals := pos.map (·.2)
    if vals.all (· == 0) then some 0
    else
      match vals.filter (· != 0) with
      | [] => some 0  -- unreachable: some value is non-zero here
      | v :: rest => some (rest.foldl (fun acc x => if x < acc then x else acc) v)

/-- `self.fret_span`: `highest_fret - lowest_fret + 1`. -/
def GuitarPosition.fret_span (pos : Positions) : Option Int :=
  match GuitarPosition.lowest_fret pos, pos.map (·.2) with
  | some lf, v :: rest =>
    some (rest.foldl (fun acc x => if acc < x then x else acc) v - lf + 1)
  | _, _ => none

/-- `self.positions_dict`: the mapping re-ordered along the guitar's
string order (strings absent from `positions` are dropped). -/
def GuitarPosition.positions_dict (g : Guitar) (pos : Positions) : Positions :=
  g.string_names.filterMap (fun s => (dictGet (· == ·) pos s).map (fun f => (s, f)))

/-- `positions_dict.get(string, -1)`. -/
def GuitarPosition.getD (g : Guitar) (pos : Positions) (s : String) : Int :=
  (dictGet (· == ·) (GuitarPosition.positions_dict g pos) s).getD (-1)

/-- `self.open_strings`: indices of guitar strings mapped to fret 0. -/
def GuitarPosition.open_strings (g : Guitar) (pos : Positions) : List Nat :=
  (g.string_names.enum.filter (fun (p : Nat × String) =>
    GuitarPosition.getD g pos p.2 == 0)).map (·.1)

/-- `self.muted_strings`: indices whose lookup defaults to (or is) -1. -/
def GuitarPosition.muted_strings (g : Guitar) (pos : Positions) : List Nat :=
  (g.string_names.enum.filter (fun (p : Nat × String) =>
    GuitarPosition.getD g pos p.2 == -1)).map (·.1)

/-- `self.fretted_strings`: indices mapped to a positive fret. -/
def GuitarPosition.fretted_strings (g : Guitar) (pos : Positions) : List Nat :=
  (g.string_names.enum.filter (fun (p : Nat × String) =>
    GuitarPosition.getD g pos p.2 > 0)).map (·.1)

/-- `lowest_fret_strings`: indices mapped exactly to the lowest fret
(empty when `lowest_fret` is `None`, as `int == None` is false). -/
def GuitarPosition.lowest_fret_strings (g : Guitar) (pos : Positions) : List Nat :=
  match GuitarPosition.lowest_fret pos with
  | none => []
  | some lf =>
    (g.string_names.enum.filter (fun (p : Nat × String) =>
      GuitarPosition.getD g pos p.2 == lf)).map (·.1)

/-- `self.use_thumb`: exactly 5 fretted strings and the first guitar
string stopped at the lowest fret. -/
def GuitarPosition.use_thumb (g : Guitar) (pos : Positions) : Bool :=
  (GuitarPosition.fretted_strings g pos).length == 5 &&
    match g.string_names.head?, GuitarPosition.lowest_fret pos with
    | some s0, some lf => GuitarPosition.getD g pos s0 == lf
    | _, _ => false

/-- `min(lowest_fret_strings)`: the lowest string index on the lowest
fret (0 when there is none; `min([])` would raise in Python, and the
source only evaluates it when at least two such strings exist). -/
def GuitarPosition.barre_lo (g : Guitar) (pos : Positions) : Nat :=
  let lfs := GuitarPosition.lowest_fret_strings g pos
  lfs.foldl min (lfs.headD 0)

/-- `max(lowest_fret_strings)`, with the same convention. -/
def GuitarPosition.barre_hi (g : Guitar) (pos : Positions) : Nat :=
  let lfs := GuitarPosition.lowest_fret_strings g pos
  lfs.foldl max (lfs.headD 0)

/-- `self.barre`: more than 4 fretted strings, no open strings, at least
two strings on the lowest fret, no thumb, and no muted or open string
strictly inside the barred range. -/
def GuitarPosition.barre (g : Guitar) (pos : Positions) : Bool :=
  (GuitarPosition.fretted_strings g pos).length > 4 &&
  (GuitarPosition.open_strings g pos).length == 0 &&
  (GuitarPosition.lowest_fret_strings g pos).length > 1 &&
  !(GuitarPosition.use_thumb g pos) &&
  !((GuitarPosition.muted_strings g pos ++ GuitarPosition.open_strings g pos).any
      (fun s => GuitarPosition.barre_lo g pos < s && s < GuitarPosition.barre_hi g pos))

/-- `n_frets = len(set(self.positions_dict.values()))`. -/
def GuitarPosition.n_frets (g : Guitar) (pos : Positions) : Nat :=
  (((GuitarPosition.positions_dict g pos).map (·.2)).dedup).length

/-- `sum(fret > self.lowest_fret for fret in positions_dict.values())`
(the number of mapped strings above the lowest fret; `lowest_fret` is an
integer whenever the source evaluates this). -/
def GuitarPosition.count_above_lowest (g : Guitar) (pos : Positions) : Nat :=
  let lf := (GuitarPosition.lowest_fret pos).getD 0
  (((GuitarPosition.positions_dict g pos).map (·.2)).filter (fun f => f > lf)).length

/-- `sum(fret == self.lowest_fret for fret in positions_dict.values())`. -/
def GuitarPosition.count_at_lowest (g : Guitar) (pos : Positions) : Nat :=
  let lf := (GuitarPosition.lowest_fret pos).getD 0
  (((GuitarPosition.positions_dict g pos).map (·.2)).filter (fun f => f == lf)).length

/-- `GuitarPosition.is_playable(max_fret_span)`, in the exact order of
the source's checks: span defined and within bounds; at most four
fretted notes always playable; thumb playable; more than four fretted
notes unplayable unless barred; barred positions need at most 4
distinct frets, at most 3 notes above the barre, and more than one
string on the lowest fret. -/
def GuitarPosition.is_playable (g : Guitar) (pos : Positions)
    (maxFretSpan : Int := 4) : Bool :=
  match GuitarPosition.fret_span pos with
  | none => false
  | some span =>
    if span > maxFretSpan then false
    else
      let nNotes := (GuitarPosition.fretted_strings g pos).length
      if nNotes ≤ 4 then true
      else if GuitarPosition.use_thumb g pos then true
      else if !(GuitarPosition.barre g pos) && nNotes > 4 then false
      else if GuitarPosition.n_frets g pos > 4 then false
      else if GuitarPosition.count_above_lowest g pos > 3 then false
      else if GuitarPosition.count_at_lowest g pos == 1 then false
      else true

/-- `self.redundant`: every non-zero fret at or above 12. -/
def GuitarPosition.redundant (g : Guitar) (pos : Positions) : Bool :=
  ((GuitarPosition.positions_dict g pos).map (·.2)).all
    (fun f => f == 0 || f ≥ 12)

/-- Python `dict.__eq__` (order-insensitive mapping equality), which is
what `GuitarPosition.__eq__`/`__hash__` compare. -/
def dictEqv (a b : Positions) : Bool :=
  a.all (fun (kv : String × Int) => dictGet (· == ·) b kv.1 == some kv.2) &&
  b.all (fun (kv : String × Int) => dictGet (· == ·) a kv.1 == some kv.2)

/-- `GuitarPosition.__eq__`: equality of the `positions_dict`s. -/
def GuitarPosition.eqv (g : Guitar) (a b : Positions) : Bool :=
  dictEqv (GuitarPosition.positions_dict g a) (GuitarPosition.positions_dict g b)

/-- `GuitarPosition.motion_helper(start, end)`: Manhattan distance in
(string index, fret) space, zero from or to an unfretted position. -/
def GuitarPosition.motion_helper (g : Guitar) (start stop : String × Int) : Int :=
  if start.2 == 0 || stop.2 == 0 then 0
  else
    let si : Int := (g.string_names.indexOf start.1 : Nat)
    let ei : Int := (g.string_names.indexOf stop.1 : Nat)
    (si - ei).natAbs + (start.2 - stop.2).natAbs

/-- `GuitarPosition.motion_distance(other, respect_fingers=False)` (the
optimizer's default): pairwise `motion_helper` cost matrix over the two
`positions_dict`s, transposed when it has more columns than rows,
solved by `assign` without surplus assignment; unmatched rows cost 0.
(The `respect_fingers=True` branch matches same-numbered fingers and is
not needed by any claim below.) -/
def GuitarPosition.motion_distance (g : Guitar) (a b : Positions) : Int :=
  let pda := GuitarPosition.positions_dict g a
  let pdb := GuitarPosition.positions_dict g b
  let mat : List (List Int) :=
    pda.map (fun s => pdb.map (fun o => GuitarPosition.motion_helper g s o))
  let mat := if pda.length < pdb.length then matTranspose mat pda.length pdb.length else mat
  match assign mat false with
  | none => 0  -- unreachable: after transposition rows ≥ columns
  | some cols =>
    (cols.enum.map (fun (row, c) =>
      match c with
      | some col => matGet mat row col
      | none => 0)).foldl (· + ·) 0

/-- Nodes of the fingering-mode optimizer: `(stage index, position)`. -/
abbrev PosNode := Int × Option Positions

/-- Node equality with `GuitarPosition.__eq__` in the second slot. -/
def posNodeEq (g : Guitar) (a b : PosNode) : Bool :=
  a.1 == b.1 &&
    match a.2, b.2 with
    | none, none => true
    | some x, some y => GuitarPosition.eqv g x y
    | _, _ => false

/-- `ChordProgression.optimal_guitar_positions` from its empty-stage
guard onward (source lines 585–613).  `candidates` stands for the
per-stage lists built on lines 571–584 — every enumerated fingering of
the stage's chord name that is playable and not redundant; the claim
this settles quantifies over those candidate sets, so the enumeration
itself (a large combinatorial pipeline) is left as the parameter.  When
some stage has zero candidates the method returns `[]` before touching
the graph; otherwise it runs the same layered-graph search as
`optimal_voice_leading` with `motion_distance` edge weights.  An empty
progression makes Python's `positions[0]` raise (`none`). -/
def optimal_guitar_positions_from (g : Guitar) (candidates : List (List Positions)) :
    Option (List (Option Positions)) :=
  if candidates.any (fun p => p.length == 0) then some []
  else
    match candidates with
    | [] => none
    | p0 :: _ =>
      let nChords : Int := (candidates.length : Int)
      let initial : PosNode := (-1, none)
      let terminal : PosNode := (nChords, none)
      let posFlat : List PosNode :=
        candidates.enum.flatMap (fun (i, p) => p.map (fun pp => ((i : Int), some pp)))
      let nodes : List PosNode := initial :: posFlat ++ [terminal]
      let initialEdges := p0.map (fun p => Edge.mk initial ((0 : Int), some p) 0)
      let terminalEdges := (candidates.getLast?.getD []).map
        (fun p => Edge.mk ((nChords - 1 : Int), some p) terminal 0)
      let interiorEdges := (candidates.dropLast).enum.flatMap (fun (i, p) =>
        let pNext := candidates.getD (i + 1) []
        p.flatMap (fun start =>
          pNext.map (fun stop =>
            Edge.mk ((i : Int), some start) ((i : Int) + 1, some stop)
              (GuitarPosition.motion_distance g start stop))))
      let edges := initialEdges ++ interiorEdges ++ terminalEdges
      let gr := Graph.mk' (posNodeEq g) nodes edges
      (gr.shortest_path (posNodeEq g) initial terminal).map
        (fun path => ((path.drop 1).dropLast).map (·.2))

/-! Frequency (`Note.__init__`): the one floating-point attribute,
modelled over the exact reals. -/

/-- `self.frequency = 440 * 2 ** ((self.semitones - 57) / 12)`: 12-tone
equal temperament anchored at A4 = 440 Hz, with `semitones` counted
from C0 (so A4 is 57). -/
noncomputable def Note.frequency (n : Note) : ℝ :=
  440 * (2 : ℝ) ^ (((n.semitones : ℝ) - 57) / 12)

/-- Modelled from the spec: the frequency formula as the spec writes it,
`f = 440 · 2^((semitones−69)/12)`, over the spec's own semitone index
`12·octave + letter-offset + modifier-offset` (which is the source's
`semitones`).  Stated separately so it can be compared with the
source's formula. -/
noncomputable def specFrequency (n : Note) : ℝ :=
  440 * (2 : ℝ) ^ (((n.semitones : ℝ) - 69) / 12)

/-! Convenience wrappers tying string inputs to the optimizer, as the
repository's tests and callers do (`ChordProgression([ChordName(s) for
s in …])`), plus concrete notes and the default guitar. -/

/-- Parse a list of chord-name strings (`none` if any fails). -/
def chord_names_of (names : List String) : Option (List ChordName) :=
  names.mapM ChordName.ofString

/-- `ChordProgression([...]).optimal_voice_leading(lower, upper)` from
chord-name strings. -/
def optimal_voice_leading_str (names : List String) (lower upper : Note) :
    Option (List (Option Chord)) :=
  (chord_names_of names).bind (fun cs => optimal_voice_leading cs lower upper)

/-- The `use_dijkstra=False` branch, from chord-name strings. -/
def optimal_voice_leading_brute_str (names : List String) (lower upper : Note) :
    Option (List Chord) :=
  (chord_names_of names).bind (fun cs => optimal_voice_leading_brute cs lower upper)

/-- The per-stage candidate voicing sets, from chord-name strings. -/
def stages_str (names : List String) (lower upper : Note) :
    Option (List (List Chord)) :=
  (chord_names_of names).map (fun cs => voicingStages cs lower upper)

/-- Notes used by the concrete claims. -/
def noteC0 : Note := ⟨.C, .natural, 0⟩

def noteC2 : Note := ⟨.C, .natural, 2⟩

def noteC3 : Note := ⟨.C, .natural, 3⟩

def noteC4 : Note := ⟨.C, .natural, 4⟩

def noteE4 : Note := ⟨.E, .natural, 4⟩

/-- `Guitar()`: the default guitar — standard tuning, 22 frets, no
capo (shown equal to `Guitar.init` with defaults in `standardGuitar_eq`
below). -/
def standardGuitar : Guitar :=
  { tuning := standardTuning
    string_names := ["E", "A", "D", "G", "B", "e"]
    frets := 22
    capo := 0
    lowest := ⟨.E, .natural, 2⟩
    highest := ⟨.D, .natural, 6⟩ }

/-- A three-node graph on which the relaxation defect shows: edges
0→1 (weight 2), 1→2 (weight 1), 0→2 (weight 2). -/
def demoGraph : Graph Nat :=
  Graph.mk' (· == ·) [0, 1, 2] [⟨0, 1, 2⟩, ⟨1, 2, 1⟩, ⟨0, 2, 2⟩]

/-- A fingering with five stopped strings, one open string and no thumb:
`{E:2, A:1, D:1, G:1, B:1, e:0}` on the standard tuning. -/
def fivePosOpenTop : Positions :=
  [("E", 2), ("A", 1), ("D", 1), ("B", 1), ("G", 1), ("e", 0)]

/-- The only Am voicing between C3 and E4: `[A3, C4, E4]`. -/
def amVoicing : Chord := [⟨.A, .natural, 3⟩, ⟨.C, .natural, 4⟩, ⟨.E, .natural, 4⟩]

/-- The close C voicing `[C3, E3, G3]`. -/
def cClose : Chord := [⟨.C, .natural, 3⟩, ⟨.E, .natural, 3⟩, ⟨.G, .natural, 3⟩]

/-- The spread C voicing `[C3, G3, E4]`. -/
def cSpread : Chord := [⟨.C, .natural, 3⟩, ⟨.G, .natural, 3⟩, ⟨.E, .natural, 4⟩]

/-- The only Dm voicing between C3 and E4: `[D3, F3, A3]`. -/
def dmVoicing : Chord := [⟨.D, .natural, 3⟩, ⟨.F, .natural, 3⟩, ⟨.A, .natural, 3⟩]

/-- The record above is what `Guitar()` constructs. -/
theorem standardGuitar_eq : Guitar.init none none DEFAULT_FRETS 0 = some standardGuitar := by
  decide

/-! Theorems settling the claims. -/

/-- Key exactness lemma for the note arithmetic: rebuilding a note from
a semitone count is exact, whatever the spelling bias. -/
theorem from_semitones_exact (s : Int) (bias : Bias) :
    (Note.from_semitones s bias).semitones = s := by
  have h0 : 0 ≤ s.emod 12 := Int.emod_nonneg s (by norm_num)
  have h1 : s.emod 12 < 12 := Int.emod_lt_of_pos s (by norm_num)
  have hd : 12 * (s.ediv 12) + s.emod 12 = s := Int.ediv_add_emod s 12
  have hcases : s.emod 12 = 0 ∨ s.emod 12 = 1 ∨ s.emod 12 = 2 ∨ s.emod 12 = 3 ∨
      s.emod 12 = 4 ∨ s.emod 12 = 5 ∨ s.emod 12 = 6 ∨ s.emod 12 = 7 ∨
      s.emod 12 = 8 ∨ s.emod 12 = 9 ∨ s.emod 12 = 10 ∨ s.emod 12 = 11 := by omega
  rcases hcases with h | h | h | h | h | h | h | h | h | h | h | h <;>
    cases bias <;>
      simp [Note.from_semitones, h, isNaturalOffset, inverseLetter, Note.semitones,
        Letter.offset, Modifier.offset] <;>
      omega

/-- C10: for every integer `s` (negative included) and either bias,
`Note.from_semitones(s, bias)` has `semitones` exactly `s`, and
consequently `add_semitones` moves a note by exactly the requested
number of semitones (for the default and for either explicit bias). -/
theorem claim10_semitone_arithmetic_exact :
    (∀ (s : Int) (bias : Bias), (Note.from_semitones s bias).semitones = s) ∧
    (∀ (n : Note) (k : Int) (b : Option Bias),
      (n.add_semitones k b).semitones = n.semitones + k) := by
  refine ⟨from_semitones_exact, fun n k b => ?_⟩
  simp [Note.add_semitones, from_semitones_exact]

/-- C4: `assign` on the 3×3 matrix returns the minimum-cost perfect
matching `[1, 0, 2]`, and on the same matrix with the extra row
`[0, 100, 50]` (surplus assignment enabled, the default) returns
`[1, 0, 2, 0]`: the fourth row gets column 0 and the first three keep
`[1, 0, 2]`. -/
theorem claim4_assign_eval :
    assign [[3, 1, 2], [1, 2, 3], [3, 2, 1]] true = some [some 1, some 0, some 2] ∧
    assign [[3, 1, 2], [1, 2, 3], [3, 2, 1], [0, 100, 50]] true =
      some [some 1, some 0, some 2, some 0] := by
  decide

/-- C2: `shortest_path` does not compute minimum cumulative weights.
On `demoGraph` (non-negative weights, sink reachable) it returns the
path `[0, 1, 2]` of total weight 3 although `[0, 2]` is a path of
weight 2, and its final cost for node 2 is 1 — neither the minimum
cumulative weight (2) nor the weight of the returned path — because the
loop relaxes with the raw edge weight instead of `cost[u] + w`. -/
theorem claim2_shortest_path_misrelaxes :
    Graph.shortest_path (· == ·) demoGraph 0 2 = some [0, 1, 2] ∧
    pathWeight (· == ·) demoGraph [0, 1, 2] = 3 ∧
    isPath (· == ·) demoGraph [0, 2] = true ∧
    pathWeight (· == ·) demoGraph [0, 2] = 2 ∧
    dictGet (· == ·) (Graph.sp_state (· == ·) demoGraph 0).costs 2 = some (some 1) := by
  decide

/-- C7 counterexample: the octave-10 and octave-(-1) notes format to
`"C10"`/`"C-1"`, which `from_string` cannot parse back (it reads only
the final character as the octave), so the round trip fails for
multi-digit and negative octaves. -/
theorem claim7_counterexample :
    Note.reprStr ⟨.C, .natural, 10⟩ = "C10" ∧
    Note.from_string (Note.reprStr ⟨.C, .natural, 10⟩) = none ∧
    Note.reprStr ⟨.C, .natural, -1⟩ = "C-1" ∧
    Note.from_string (Note.reprStr ⟨.C, .natural, -1⟩) = none := by
  decide

/-- C7 amended: for octaves 0–9 (single digit) the round trip holds:
parsing `str(p)` succeeds and yields a note equal (`Note.__eq__`, i.e.
equal `semitones`) to `p`, for every letter and modifier. -/
theorem claim7_roundtrip_single_digit (l : Letter) (m : Modifier) (o : Int)
    (h0 : 0 ≤ o) (h9 : o ≤ 9) :
    (Note.from_string (Note.reprStr ⟨l, m, o⟩)).map Note.semitones =
      some (Note.mk l m o).semitones := by
  revert l m
  interval_cases o <;> decide

/-- Witness for the amended C7 round trip at `G#4`. -/
theorem claim7_roundtrip_witness :
    (Note.from_string (Note.reprStr ⟨Letter.G, Modifier.sharp, 4⟩)).map Note.semitones =
      some (Note.mk Letter.G Modifier.sharp 4).semitones :=
  claim7_roundtrip_single_digit Letter.G Modifier.sharp 4 (by norm_num) (by norm_num)

/-- C8 counterexample: on A4 (semitone index 57 under the spec's own
index `12·octave + letter-offset + modifier-offset`), the source's
frequency is 440 Hz while the spec's formula `440·2^((s−69)/12)` gives
220 Hz, so the claimed formula and the claimed value A4 = 440 Hz cannot
both hold — and the source disagrees with the claimed formula. -/
theorem claim8_counterexample :
    Note.frequency ⟨.A, .natural, 4⟩ = 440 ∧
    specFrequency ⟨.A, .natural, 4⟩ = 220 ∧
    Note.frequency ⟨.A, .natural, 4⟩ ≠ specFrequency ⟨.A, .natural, 4⟩ := by
  have hs : (Note.semitones ⟨.A, .natural, 4⟩ : Int) = 57 := by decide
  have h1 : Note.frequency ⟨.A, .natural, 4⟩ = 440 := by
    rw [Note.frequency, hs]
    norm_num
  have h2 : specFrequency ⟨.A, .natural, 4⟩ = 220 := by
    rw [specFrequency, hs]
    have he : (((57 : Int) : ℝ) - 69) / 12 = (-1 : ℝ) := by norm_num
    rw [he, Real.rpow_neg_one]
    norm_num
  exact ⟨h1, h2, by rw [h1, h2]; norm_num⟩

/-- C8 amended: the frequency attribute is `440·2^((m−69)/12)` where
`m = semitones + 12` is the MIDI note number (equivalently
`440·2^((semitones−57)/12)` over the source's C0-based index), and A4
has frequency 440 Hz. -/
theorem claim8_frequency_formula :
    (∀ n : Note, Note.frequency n =
        440 * (2 : ℝ) ^ ((((n.semitones : ℝ) + 12) - 69) / 12)) ∧
    Note.frequency ⟨.A, .natural, 4⟩ = 440 := by
  constructor
  · intro n
    rw [Note.frequency]
    congr 1
    ring_nf
  · have hs : (Note.semitones ⟨.A, .natural, 4⟩ : Int) = 57 := by decide
    rw [Note.frequency, hs]
    norm_num

/-- C9 counterexample: `Guitar(capo=23)` (default 22 frets) constructs
without error and carries `frets == -1 < 0`, violating the claimed
invariant. -/
theorem claim9_counterexample :
    (Guitar.init none none 22 23).map Guitar.frets = some (-1) ∧ ¬(0 ≤ (-1 : Int)) := by
  decide

/-- Helper for C9: any successfully built guitar has
`frets = frets_argument - capo`. -/
theorem build_frets (ot : Tuning) (fr c : Int) (g : Guitar)
    (h : Guitar.build ot fr c = some g) : g.frets = fr - c := by
  unfold Guitar.build at h
  dsimp only at h
  split at h
  · exact absurd h (by simp)
  · cases h
    rfl

/-- C9 amended: every constructed guitar has `frets = frets − capo`
(unchecked), so the fret count after capo is non-negative exactly when
`capo ≤ frets`; the constructor itself never enforces this. -/
theorem claim9_frets_after_capo (tn : Option String) (t : Option Tuning) (fr c : Int)
    (g : Guitar) (h : Guitar.init tn t fr c = some g) :
    g.frets = fr - c ∧ (0 ≤ g.frets ↔ c ≤ fr) := by
  obtain ⟨ot, -, hb⟩ := Option.bind_eq_some.mp h
  have hf := build_frets ot fr c g hb
  exact ⟨hf, by rw [hf]; omega⟩

/-- Witness for the amended C9 at the default constructor arguments. -/
theorem claim9_frets_witness :
    standardGuitar.frets = 22 - 0 ∧ (0 ≤ standardGuitar.frets ↔ (0 : Int) ≤ 22) :=
  claim9_frets_after_capo none none 22 0 standardGuitar (by decide)

/-- C6: the barre flag holds exactly when the fingering has more than 4
stopped strings, no open strings, at least 2 strings on the minimum
fret, no thumb in use, and no muted or open string strictly between the
lowest- and highest-indexed strings sharing the minimum fret; and the
open-G-shape barre `{E:3, A:5, D:5, G:4, B:3, e:3}` on the standard
tuning is flagged as a barre. -/
theorem claim6_barre_characterization :
    (∀ (g : Guitar) (pos : Positions),
        GuitarPosition.barre g pos = true ↔
          (4 < (GuitarPosition.fretted_strings g pos).length ∧
           GuitarPosition.open_strings g pos = [] ∧
           2 ≤ (GuitarPosition.lowest_fret_strings g pos).length ∧
           GuitarPosition.use_thumb g pos = false ∧
           ∀ s ∈ GuitarPosition.muted_strings g pos ++ GuitarPosition.open_strings g pos,
             ¬(GuitarPosition.barre_lo g pos < s ∧ s < GuitarPosition.barre_hi g pos))) ∧
    GuitarPosition.barre standardGuitar
      [("E", 3), ("A", 5), ("D", 5), ("G", 4), ("B", 3), ("e", 3)] = true := by
  constructor
  · intro g pos
    simp only [GuitarPosition.barre, Bool.and_eq_true, Bool.not_eq_true',
      decide_eq_true_eq, beq_iff_eq, List.length_eq_zero, List.any_eq_false,
      Bool.and_eq_false_iff, gt_iff_lt]
    constructor
    · rintro ⟨⟨⟨⟨h1, h2⟩, h3⟩, h4⟩, h5⟩
      exact ⟨h1, h2, by omega, h4, h5⟩
    · rintro ⟨h1, h2, h3, h4, h5⟩
      exact ⟨⟨⟨⟨h1, h2⟩, by omega⟩, h4⟩, h5⟩
  · decide

/-- C5 counterexample: `fivePosOpenTop` satisfies every condition of the
claimed biconditional's right-hand side — span 2 ≤ 4, five stopped
strings, no thumb, 3 distinct frets ≤ 4, one stopped string above the
minimum fret ≤ 3, and four strings at the minimum fret ≥ 2 — yet
`is_playable` is false, because with more than four stopped strings and
no thumb the source additionally requires the barre flag, which the
open top string defeats. -/
theorem claim5_counterexample :
    GuitarPosition.fret_span fivePosOpenTop = some 2 ∧ (2 : Int) ≤ 4 ∧
    (GuitarPosition.fretted_strings standardGuitar fivePosOpenTop).length = 5 ∧
    GuitarPosition.use_thumb standardGuitar fivePosOpenTop = false ∧
    GuitarPosition.n_frets standardGuitar fivePosOpenTop ≤ 4 ∧
    GuitarPosition.count_above_lowest standardGuitar fivePosOpenTop ≤ 3 ∧
    2 ≤ GuitarPosition.count_at_lowest standardGuitar fivePosOpenTop ∧
    GuitarPosition.is_playable standardGuitar fivePosOpenTop 4 = false := by
  decide

/-- Helper: a value looked up in a dictionary is one of its entries. -/
theorem dictGet_mem {β : Type} {pos : Dict String β} {k : String} {v : β}
    (h : dictGet (· == ·) pos k = some v) : (k, v) ∈ pos := by
  induction pos with
  | nil => simp [dictGet] at h
  | cons hd tl ih =>
    cases hd with
    | mk a b =>
      simp only [dictGet] at h
      by_cases hak : a == k
      · rw [if_pos hak] at h
        cases h
        have hk : a = k := beq_iff_eq.mp hak
        subst hk
        exact List.mem_cons_self _ _
      · rw [if_neg hak] at h
        exact List.mem_cons_of_mem _ (ih h)

/-- Helper: with distinct keys, every entry is found by lookup. -/
theorem dictGet_of_mem {β : Type} {pos : Dict String β} {k : String} {v : β}
    (hnd : (pos.map Prod.fst).Nodup) (hm : (k, v) ∈ pos) :
    dictGet (· == ·) pos k = some v := by
  induction pos with
  | nil => simp at hm
  | cons hd tl ih =>
    cases hd with
    | mk a b =>
      simp only [List.map_cons, List.nodup_cons] at hnd
      rcases List.mem_cons.mp hm with heq | hmem
      · cases heq
        simp [dictGet]
      · simp only [dictGet]
        by_cases hak : a == k
        · exfalso
          have hk : a = k := beq_iff_eq.mp hak
          subst hk
          exact hnd.1 (List.mem_map_of_mem Prod.fst hmem)
        · rw [if_neg hak]
          exact ih hnd.2 hmem

/-- Helper: the running minimum of a fold is an element of the list. -/
theorem foldlMin_mem (rest : List Int) : ∀ (v : Int),
    rest.foldl (fun acc x => if x < acc then x else acc) v ∈ v :: rest := by
  induction rest with
  | nil => intro v; simp
  | cons x xs ih =>
    intro v
    simp only [List.foldl_cons]
    by_cases h : x < v
    · rw [if_pos h]
      exact List.mem_cons_of_mem v (ih x)
    · rw [if_neg h]
      rcases List.mem_cons.mp (ih v) with he | hm
      · rw [he]
        exact List.mem_cons_self _ _
      · exact List.mem_cons_of_mem _ (List.mem_cons_of_mem _ hm)

/-- Helper: a mapping with some non-zero fret has a lowest fret, which
is one of its (non-zero) values. -/
theorem lowest_fret_exists (pos : Positions) {p : String × Int}
    (hp : p ∈ pos) (hnz : p.2 ≠ 0) :
    ∃ lf, GuitarPosition.lowest_fret pos = some lf ∧ lf ∈ pos.map (·.2) ∧ lf ≠ 0 := by
  cases pos with
  | nil => simp at hp
  | cons q rest =>
    have hvmem : p.2 ∈ ((q :: rest).map (·.2)) := List.mem_map_of_mem _ hp
    have hallz : ¬ ((q :: rest).map (·.2)).all (· == 0) = true := by
      intro hall
      have := List.all_eq_true.mp hall _ hvmem
      exact hnz (by simpa using this)
    have hfmem : p.2 ∈ ((q :: rest).map (·.2)).filter (· != 0) := by
      refine List.mem_filter.mpr ⟨hvmem, ?_⟩
      simpa using hnz
    unfold GuitarPosition.lowest_fret
    simp only []
    rw [if_neg hallz]
    cases hft : ((q :: rest).map (·.2)).filter (· != 0) with
    | nil => rw [hft] at hfmem; simp at hfmem
    | cons w ws =>
      refine ⟨ws.foldl (fun acc x => if x < acc then x else acc) w, rfl, ?_, ?_⟩
      · have hm := foldlMin_mem ws w
        rw [← hft] at hm
        exact (List.mem_filter.mp hm).1
      · have hm := foldlMin_mem ws w
        rw [← hft] at hm
        have := (List.mem_filter.mp hm).2
        simpa using this

/-- Helper: membership transfers into `positions_dict`. -/
theorem mem_positions_dict (g : Guitar) (pos : Positions) {k : String} {v : Int}
    (hk : k ∈ g.string_names) (hget : dictGet (· == ·) pos k = some v) :
    (k, v) ∈ GuitarPosition.positions_dict g pos := by
  unfold GuitarPosition.positions_dict
  exact List.mem_filterMap.mpr ⟨k, hk, by rw [hget]; rfl⟩

/-- Helper: entries of `positions_dict` come from the raw mapping. -/
theorem positions_dict_get (g : Guitar) (pos : Positions) {k : String} {v : Int}
    (h : (k, v) ∈ GuitarPosition.positions_dict g pos) :
    dictGet (· == ·) pos k = some v := by
  unfold GuitarPosition.positions_dict at h
  obtain ⟨a, ha, hmap⟩ := List.mem_filterMap.mp h
  obtain ⟨u, hu, huv⟩ := Option.map_eq_some'.mp hmap
  cases huv
  exact hu

/-- Helper: a fingering with a fretted string has at least one string on
the lowest fret (the lowest fret is attained). -/
theorem count_at_lowest_pos (g : Guitar) (pos : Positions)
    (hnd : (pos.map Prod.fst).Nodup)
    (hsub : ∀ k ∈ pos.map Prod.fst, k ∈ g.string_names)
    (hfr : 0 < (GuitarPosition.fretted_strings g pos).length) :
    1 ≤ GuitarPosition.count_at_lowest g pos := by
  obtain ⟨i, hmem⟩ := List.exists_mem_of_length_pos hfr
  obtain ⟨⟨j, s⟩, hjs, hfst⟩ := List.mem_map.mp hmem
  have hpred := (List.mem_filter.mp hjs).2
  have hgt : GuitarPosition.getD g pos s > 0 := by simpa using hpred
  cases hg : dictGet (· == ·) (GuitarPosition.positions_dict g pos) s with
  | none =>
    exfalso
    unfold GuitarPosition.getD at hgt
    rw [hg] at hgt
    simp at hgt
  | some v =>
    have hv : v > 0 := by
      unfold GuitarPosition.getD at hgt
      rw [hg] at hgt
      simpa using hgt
    have hpdmem : (s, v) ∈ GuitarPosition.positions_dict g pos := dictGet_mem hg
    have hposget := positions_dict_get g pos hpdmem
    have hposmem : (s, v) ∈ pos := dictGet_mem hposget
    obtain ⟨lf, hlf, hlfmem, hlfnz⟩ :=
      lowest_fret_exists pos hposmem (by simp; omega)
    obtain ⟨⟨k, w⟩, hkmem, hsnd⟩ := List.mem_map.mp hlfmem
    simp only [] at hsnd
    subst hsnd
    have hks : k ∈ g.string_names :=
      hsub k (List.mem_map_of_mem Prod.fst hkmem)
    have hkget : dictGet (· == ·) pos k = some w := dictGet_of_mem hnd hkmem
    have hkpd : (k, w) ∈ GuitarPosition.positions_dict g pos :=
      mem_positions_dict g pos hks hkget
    have hwvals : w ∈ (GuitarPosition.positions_dict g pos).map (·.2) :=
      List.mem_map_of_mem _ hkpd
    unfold GuitarPosition.count_at_lowest
    rw [hlf]
    have hfmem : w ∈ ((GuitarPosition.positions_dict g pos).map (·.2)).filter
        (fun f => f == (some w).getD 0) := by
      refine List.mem_filter.mpr ⟨hwvals, by simp⟩
    exact List.length_pos.mpr (List.ne_nil_of_mem hfmem)

/-- C5 amended: for a well-formed fingering (distinct string keys drawn
from the guitar) whose fret span is within the configured maximum, with
more than 4 stopped strings and no thumb, the fingering is playable iff
it is additionally barre-eligible and the stopped strings occupy at
most 4 distinct frets, at most 3 mapped strings lie above the minimum
fret, and at least 2 strings sit at the minimum fret.  (The barre
condition is what the original claim omitted; a lone string at the
minimum fret with more than 4 stopped strings and no thumb remains
unplayable.) -/
theorem claim5_playable_over4 (g : Guitar) (pos : Positions) (maxSpan : Int)
    (hnd : (pos.map Prod.fst).Nodup)
    (hsub : ∀ k ∈ pos.map Prod.fst, k ∈ g.string_names)
    (hspan : ∃ sp, GuitarPosition.fret_span pos = some sp ∧ sp ≤ maxSpan)
    (hfr : 4 < (GuitarPosition.fretted_strings g pos).length)
    (hth : GuitarPosition.use_thumb g pos = false) :
    (GuitarPosition.is_playable g pos maxSpan = true ↔
      (GuitarPosition.barre g pos = true ∧
       GuitarPosition.n_frets g pos ≤ 4 ∧
       GuitarPosition.count_above_lowest g pos ≤ 3 ∧
       2 ≤ GuitarPosition.count_at_lowest g pos)) := by
  obtain ⟨sp, hspE, hspLe⟩ := hspan
  have hcount := count_at_lowest_pos g pos hnd hsub (by omega)
  unfold GuitarPosition.is_playable
  rw [hspE]
  simp only []
  rw [if_neg (by omega : ¬ sp > maxSpan)]
  rw [if_neg (by omega : ¬ (GuitarPosition.fretted_strings g pos).length ≤ 4)]
  rw [hth]
  simp only [Bool.false_eq_true, if_false]
  by_cases hb : GuitarPosition.barre g pos = true
  · rw [hb]
    simp only [Bool.not_true, Bool.false_and, Bool.false_eq_true, if_false]
    by_cases h4 : GuitarPosition.n_frets g pos > 4
    · rw [if_pos h4]
      simp only [Bool.false_eq_true, false_iff]
      rintro ⟨-, hle, -, -⟩
      omega
    · rw [if_neg h4]
      by_cases h3 : GuitarPosition.count_above_lowest g pos > 3
      · rw [if_pos h3]
        simp only [Bool.false_eq_true, false_iff]
        rintro ⟨-, -, hle, -⟩
        omega
      · rw [if_neg h3]
        by_cases h1 : GuitarPosition.count_at_lowest g pos == 1
        · rw [if_pos h1]
          simp only [Bool.false_eq_true, false_iff]
          rintro ⟨-, -, -, h2⟩
          have : GuitarPosition.count_at_lowest g pos = 1 := by simpa using h1
          omega
        · rw [if_neg h1]
          simp only [true_iff]
          have hne : GuitarPosition.count_at_lowest g pos ≠ 1 := by
            simpa using h1
          exact ⟨trivial, by omega, by omega, by omega⟩
  · have hbf : GuitarPosition.barre g pos = false := by
      cases hx : GuitarPosition.barre g pos
      · rfl
      · exact absurd hx hb
    rw [hbf]
    simp only [Bool.not_false, Bool.true_and, decide_eq_true_eq]
    rw [if_pos (by omega : 4 < (GuitarPosition.fretted_strings g pos).length)]
    simp only [Bool.false_eq_true, false_iff]
    rintro ⟨hbt, -⟩
    exact hbt

/-- Witness for the amended C5 at the open-G-shape barre fingering. -/
theorem claim5_playable_witness :
    GuitarPosition.is_playable standardGuitar
        [("E", 3), ("A", 5), ("D", 5), ("G", 4), ("B", 3), ("e", 3)] 4 = true ↔
      (GuitarPosition.barre standardGuitar
          [("E", 3), ("A", 5), ("D", 5), ("G", 4), ("B", 3), ("e", 3)] = true ∧
       GuitarPosition.n_frets standardGuitar
          [("E", 3), ("A", 5), ("D", 5), ("G", 4), ("B", 3), ("e", 3)] ≤ 4 ∧
       GuitarPosition.count_above_lowest standardGuitar
          [("E", 3), ("A", 5), ("D", 5), ("G", 4), ("B", 3), ("e", 3)] ≤ 3 ∧
       2 ≤ GuitarPosition.count_at_lowest standardGuitar
          [("E", 3), ("A", 5), ("D", 5), ("G", 4), ("B", 3), ("e", 3)]) :=
  claim5_playable_over4 standardGuitar
    [("E", 3), ("A", 5), ("D", 5), ("G", 4), ("B", 3), ("e", 3)] 4
    (by decide) (by decide) ⟨3, by decide, by decide⟩ (by decide) (by decide)

/-- C3 counterexample: on the one-chord progression `[C]` realized
between C0 and C0Note the single stage's candidate set is empty, and
`optimal_voice_leading` fails (the backtracking `KeyError`, modelled as
`none`) instead of returning an empty result — it has no empty-stage
guard. -/
theorem claim3_counterexample :
    stages_str ["C"] noteC0 noteC0 = some [[]] ∧
    optimal_voice_leading_str ["C"] noteC0 noteC0 = none := by
  decide

/-- C3 amended: when some stage has zero candidates,
`optimal_guitar_positions` returns the empty list (its explicit guard),
for every guitar and every family of per-stage candidate sets; but
`optimal_voice_leading` has no such guard and instead raises — shown on
the concrete progression `[C]` over the empty range C0–C0, whose only
stage enumerates no voicing. -/
theorem claim3_empty_stage (g : Guitar) (candidates : List (List Positions))
    (h : ∃ p ∈ candidates, p = []) :
    optimal_guitar_positions_from g candidates = some [] ∧
    (stages_str ["C"] noteC0 noteC0 = some [[]] ∧
     optimal_voice_leading_str ["C"] noteC0 noteC0 = none) := by
  refine ⟨?_, by decide, by decide⟩
  obtain ⟨p, hp, hpe⟩ := h
  unfold optimal_guitar_positions_from
  have hany : candidates.any (fun p => p.length == 0) = true :=
    List.any_eq_true.mpr ⟨p, hp, by simp [hpe]⟩
  rw [if_pos hany]

/-- Witness for the amended C3 with a one-stage empty candidate set. -/
theorem claim3_empty_stage_witness :
    optimal_guitar_positions_from standardGuitar [[]] = some [] ∧
    (stages_str ["C"] noteC0 noteC0 = some [[]] ∧
     optimal_voice_leading_str ["C"] noteC0 noteC0 = none) :=
  claim3_empty_stage standardGuitar [[]] ⟨[], by simp, rfl⟩

/-- C1: `optimal_voice_leading` is not optimal.  On the progression
`[Am, C, Dm]` realized between C3 and E4 the stages have candidate sets
`[[A3,C4,E4]]`, `[[C3,E3,G3], [C3,G3,E4]]` and `[[D3,F3,A3]]`; the
method returns the sequence through the close C voicing, of total
`semitone_distance` 31, while the sequence through the spread C voicing
— drawn from the same candidate sets, and found by the method's own
`use_dijkstra=False` brute-force branch — totals 25.  (The defect is
the shortest-path relaxation, cf. the C2 theorem.) -/
theorem claim1_voice_leading_suboptimal :
    stages_str ["Am", "C", "Dm"] noteC3 noteE4 =
      some [[amVoicing], [cClose, cSpread], [dmVoicing]] ∧
    optimal_voice_leading_str ["Am", "C", "Dm"] noteC3 noteE4 =
      some [some amVoicing, some cClose, some dmVoicing] ∧
    totalMotion [amVoicing, cClose, dmVoicing] = 31 ∧
    totalMotion [amVoicing, cSpread, dmVoicing] = 25 ∧
    optimal_voice_leading_brute_str ["Am", "C", "Dm"] noteC3 noteE4 =
      some [amVoicing, cSpread, dmVoicing] := by
  decide

end Music
